import Mathlib

/-!
Verification development for the bukkit-plugins deploy helper
(`deploy.py`).  The script reads a build artifact, a `pom.xml` manifest
and an optional `CHANGELOG.md`, derives the window of supported game
versions from a hardcoded catalog, and uploads the artifact to Modrinth
and/or CurseForge.  Every definition below is a shallow embedding of the
corresponding Python code; side effects (log messages, HTTP calls) are
made explicit as data.
-/

namespace DeployHelper

/-! ## The version catalog (`AVAILABLE_GAME_VERSIONS`, deploy.py lines 12-45) -/

def AVAILABLE_GAME_VERSIONS : List String :=
  ["1.12", "1.12.1", "1.12.2",
   "1.13", "1.13.1", "1.13.2",
   "1.14", "1.14.1", "1.14.2", "1.14.3", "1.14.4",
   "1.15", "1.15.1", "1.15.2",
   "1.16", "1.16.1", "1.16.2", "1.16.3", "1.16.4", "1.16.5",
   "1.17", "1.17.1",
   "1.18", "1.18.1", "1.18.2",
   "1.19", "1.19.1", "1.19.2", "1.19.3", "1.19.4",
   "1.20", "1.20.1"]

/-! ## Python string helpers

`str.strip(chars)` removes characters of the given set from both ends.
With no argument Python strips whitespace; for the ASCII range that set
is space, tab, newline, carriage return, vertical tab and form feed. -/

def pyStripChars (p : Char → Bool) (l : List Char) : List Char :=
  ((l.dropWhile p).reverse.dropWhile p).reverse

def isPySpace (c : Char) : Bool :=
  c = ' ' || c = '\t' || c = '\n' || c = '\r' || c = '\x0b' || c = '\x0c'

def pyStrip (l : List Char) : List Char := pyStripChars isPySpace l

def stripHashes (l : List Char) : List Char := pyStripChars (fun c => c = '#') l

/-! ## `Uploader.get_base_version` (deploy.py lines 76-83)

The Python code runs `re.match(r"^([0-9]+.[0-9]+).?([0-9]+)?", version)`
and returns group 1 when group 2 matched, otherwise the input unchanged.
The dots in the pattern are unescaped, so each of them matches any single
character except a newline.  The regex engine is greedy with
backtracking: the first `[0-9]+` takes the longest digit prefix for which
the rest of the group (`any char` then one or more digits) still matches,
trying shorter prefixes one character at a time.  After group 1 there is
no failure point: `.?` consumes one non-newline character when available
and `([0-9]+)?` matches a digit run or the empty string (group 2 = None).

`matchAttempt cs n1` plays one backtracking attempt in which the first
`[0-9]+` consumes exactly `n1` characters; it yields the text of group 1
together with the remaining input.  `searchMatch` tries the attempts in
the order the engine does, from the full digit prefix down to length 1. -/

def matchTail (g1 : List Char) : List Char → Option (List Char × List Char)
  | [] => none
  | sep :: rest =>
    if sep = '\n' then none
    else
      let d2 := rest.takeWhile Char.isDigit
      if d2 = [] then none
      else some (g1 ++ sep :: d2, rest.drop d2.length)

def matchAttempt (cs : List Char) (n1 : Nat) : Option (List Char × List Char) :=
  matchTail (cs.take n1) (cs.drop n1)

def searchMatch (cs : List Char) : Nat → Option (List Char × List Char)
  | 0 => none
  | n + 1 =>
    match matchAttempt cs (n + 1) with
    | some r => some r
    | none => searchMatch cs n

def get_base_version (version : String) : String :=
  let cs := version.toList
  match searchMatch cs (cs.takeWhile Char.isDigit).length with
  | none => version
  | some (g1, rest) =>
    let rest2 := match rest with
      | [] => ([] : List Char)
      | c :: t => if c = '\n' then c :: t else t
    if (rest2.takeWhile Char.isDigit) = [] then version
    else String.mk g1

/-! ## `Uploader.get_changelog_entries_for_version` (deploy.py lines 85-113)

The scan strips each physical line, resets the in-section flag on every
line starting with `## `, parses such a header (after stripping the
hash marks and the surrounding whitespace) against
`^([0-9.]+) \((\d{4}-\d{2}-\d{2})\)$`, opens collection when group 1
equals the target version, and appends every other stripped line while
the flag is set.  The result is the collected lines joined with
newlines and stripped; a warning is logged exactly when no line was
collected.  We model the input as the list of the file lines and the
warning as a boolean component of the result.

In the header pattern the class `[0-9.]+` is greedy and the following
literal is a space, which the class does not contain, so the only
possible group 1 is the maximal run of digits and dots; the date part
is a fixed 11-character shape anchored at the end of the line. -/

def isVersionChar (c : Char) : Bool := c.isDigit || c = '.'

def dateTail (l : List Char) : Bool :=
  match l with
  | [y1, y2, y3, y4, '-', m1, m2, '-', d1, d2, ')'] =>
    y1.isDigit && y2.isDigit && y3.isDigit && y4.isDigit &&
    m1.isDigit && m2.isDigit && d1.isDigit && d2.isDigit
  | _ => false

def parseHeaderVersion (header : List Char) : Option (List Char) :=
  let v := header.takeWhile isVersionChar
  if v = [] then none
  else
    match header.drop v.length with
    | ' ' :: '(' :: rest => if dateTail rest then some v else none
    | _ => none

/-- The three characters a level-2 heading line starts with. -/
def hhSpace : List Char := ['#', '#', ' ']

/-- The in-section flag the loop would carry after a stripped header
line: true exactly when the header parses and its version group equals
the target. -/
def headerMatches (version : List Char) (line : List Char) : Bool :=
  match parseHeaderVersion (pyStrip (stripHashes line)) with
  | some v => v = version
  | none => false

def collectSection (version : List Char) :
    List (List Char) → Bool → List (List Char)
  | [], _ => []
  | l :: rest, inSec =>
    let line := pyStrip l
    if List.isPrefixOf hhSpace line then
      collectSection version rest (headerMatches version line)
    else if inSec then
      line :: collectSection version rest inSec
    else
      collectSection version rest inSec

/-- The in-section flag after the whole line list has been processed. -/
def sectionState (version : List Char) :
    List (List Char) → Bool → Bool
  | [], b => b
  | l :: rest, b =>
    let line := pyStrip l
    if List.isPrefixOf hhSpace line then
      sectionState version rest (headerMatches version line)
    else
      sectionState version rest b

def joinLines : List (List Char) → List Char
  | [] => []
  | [l] => l
  | l :: r :: rest => l ++ '\n' :: joinLines (r :: rest)

/-- Result of the extraction together with the warning flag of line
111 (`if not section_lines`). -/
def get_changelog_entries_for_version (lines : List String) (version : String) :
    String × Bool :=
  let sec := collectSection version.toList (lines.map String.toList) false
  (String.mk (pyStrip (joinLines sec)), sec.isEmpty)

/-! ## `Uploader.__init__` (deploy.py lines 49-74)

Inputs that the constructor reads from the file system are passed
explicitly: the list the glob `target/*.jar` produced, the text of the
`bukkit-api-version` element of `pom.xml` when the element is present,
and the lines of `CHANGELOG.md` when that file exists.  The two raised
Python exceptions become error values: `IndexError` from `[0]` on an
empty glob list (the missing-artifact failure) and `ValueError` from
`list.index` when the normalized minimum version is not in the
catalog.  The two log side effects that the claims mention are recorded
as booleans. -/

structure InitInput where
  jar_files : List String
  bukkit_api_version : Option String
  changelog_file : Option (List String)
  version : String

inductive InitError where
  | indexError
  | valueError
deriving DecidableEq

structure Uploader where
  upload_file : String
  version : String
  supported_game_versions : List String
  changelog : String
  defaultNoticeLogged : Bool
  changelogWarningLogged : Bool
deriving DecidableEq

/-- Lines 57-62: the element text stripped when present, else the
hardcoded default `"1.14.4"`; the boolean records the info log of
line 62. -/
def resolveMinimumVersion : Option String → String × Bool
  | some t => (String.mk (pyStrip t.toList), false)
  | none => ("1.14.4", true)

/-- Python `list.index`: position of the first equal element. -/
def listIndex (x : String) : List String → Option Nat
  | [] => none
  | y :: l => if y = x then some 0 else (listIndex x l).map Nat.succ

deriving instance DecidableEq for Except

def uploaderInit (input : InitInput) : Except InitError Uploader :=
  match input.jar_files with
  | [] => Except.error InitError.indexError
  | jar :: _ =>
    let rm := resolveMinimumVersion input.bukkit_api_version
    match listIndex (get_base_version rm.1) AVAILABLE_GAME_VERSIONS with
    | none => Except.error InitError.valueError
    | some i =>
      let cl := match input.changelog_file with
        | some ls => get_changelog_entries_for_version ls input.version
        | none => ("", false)
      Except.ok
        { upload_file := jar
          version := input.version
          supported_game_versions := AVAILABLE_GAME_VERSIONS.drop i
          changelog := cl.1
          defaultNoticeLogged := rm.2
          changelogWarningLogged := cl.2 }

/-! ## `Uploader.upload_curseforge`, version-id collection (lines 126-133)

The loop keeps, in order, `game_version.get("id")` of every record whose
`gameVersionTypeID` equals 1 and whose `name` is contained in
`supported_game_versions`.  `dict.get` returns `None` for an absent
key, so every field is optional. -/

structure GameVersionRecord where
  id : Option Int
  name : Option String
  gameVersionTypeID : Option Int
deriving DecidableEq

def cfRecordMatches (supported : List String) (r : GameVersionRecord) : Bool :=
  (r.gameVersionTypeID = some 1 : Bool) &&
    (match r.name with
     | some n => supported.contains n
     | none => false)

def supportedGameVersionIds (supported : List String) :
    List GameVersionRecord → List (Option Int)
  | [] => []
  | r :: rest =>
    if cfRecordMatches supported r then
      r.id :: supportedGameVersionIds supported rest
    else
      supportedGameVersionIds supported rest

/-! ## The entry sequence (deploy.py lines 178-191)

After constructing the uploader, the script writes the changelog and
then guards each upload call with the truthiness of the project-id
environment variable: `os.getenv` yields `None` when the variable is
unset, and `if pid:` skips for `None` and for the empty string.  We
record the calls the script performs as a list of actions. -/

structure MainEnv where
  modrinth_project_id : Option String
  modrinth_auth : Option String
  curseforge_project_id : Option String
  curseforge_auth : Option String

inductive MainAction where
  | saveChangelog
  | uploadModrinth (project_id : String) (auth : Option String)
  | uploadCurseforge (project_id : String) (auth : Option String)
deriving DecidableEq

def mainActions (env : MainEnv) : List MainAction :=
  MainAction.saveChangelog ::
    ((match env.modrinth_project_id with
      | some pid =>
        if pid = "" then []
        else [MainAction.uploadModrinth pid env.modrinth_auth]
      | none => []) ++
     (match env.curseforge_project_id with
      | some pid =>
        if pid = "" then []
        else [MainAction.uploadCurseforge pid env.curseforge_auth]
      | none => []))

/-- True when a stripped line both looks like a level-2 heading and parses to
the target version, that is, when the scan (re)opens the target section. -/
def opensSection (version : List Char) (l : List Char) : Bool :=
  List.isPrefixOf hhSpace (pyStrip l) && headerMatches version (pyStrip l)

/-! ## Helper lemmas -/

theorem takeWhile_all_append {α : Type} (p : α → Bool) (a l : List α)
    (h : ∀ x ∈ a, p x = true) :
    (a ++ l).takeWhile p = a ++ l.takeWhile p := by
  induction a with
  | nil => simp
  | cons x xs ih =>
    have hx : p x = true := h x (List.mem_cons_self x xs)
    simp only [List.cons_append, List.takeWhile_cons_of_pos hx]
    rw [ih (fun y hy => h y (List.mem_cons_of_mem x hy))]

theorem takeWhile_all_self {α : Type} (p : α → Bool) (a : List α)
    (h : ∀ x ∈ a, p x = true) : a.takeWhile p = a := by
  have h2 := takeWhile_all_append p a [] h
  simpa using h2

theorem searchMatch_succ (cs : List Char) (n : Nat) :
    searchMatch cs (n + 1) =
      match matchAttempt cs (n + 1) with
      | some r => some r
      | none => searchMatch cs n := by
  simp only [searchMatch]

theorem matchAttempt_split (a b rest : List Char) (s : Char)
    (hb : b ≠ []) (hb2 : ∀ x ∈ b, x.isDigit = true)
    (hs : s ≠ '\x0a')
    (hrest : rest.takeWhile Char.isDigit = []) :
    matchAttempt (a ++ (s :: (b ++ rest))) a.length = some (a ++ (s :: b), rest) := by
  have hd2 : (b ++ rest).takeWhile Char.isDigit = b := by
    rw [takeWhile_all_append Char.isDigit b rest hb2, hrest, List.append_nil]
  unfold matchAttempt
  rw [List.drop_left, List.take_left]
  simp only [matchTail, hd2]
  rw [if_neg hs, if_neg hb, List.drop_left]

theorem searchMatch_split (a b rest : List Char) (s : Char)
    (ha : a ≠ []) (ha2 : ∀ x ∈ a, x.isDigit = true)
    (hb : b ≠ []) (hb2 : ∀ x ∈ b, x.isDigit = true)
    (hsd : s.isDigit = false) (hs : s ≠ '\x0a')
    (hrest : rest.takeWhile Char.isDigit = []) :
    searchMatch (a ++ (s :: (b ++ rest)))
        ((a ++ (s :: (b ++ rest))).takeWhile Char.isDigit).length =
      some (a ++ (s :: b), rest) := by
  have htw : (a ++ (s :: (b ++ rest))).takeWhile Char.isDigit = a := by
    rw [takeWhile_all_append Char.isDigit a _ ha2,
        List.takeWhile_cons_of_neg (by simp [hsd]), List.append_nil]
  rw [htw]
  obtain ⟨n, hn⟩ : ∃ n, a.length = n + 1 := by
    cases a with
    | nil => exact absurd rfl ha
    | cons x xs => exact ⟨xs.length, rfl⟩
  rw [hn, searchMatch_succ, ← hn, matchAttempt_split a b rest s hb hb2 hs hrest]

/-- Unfolding of `get_base_version` on an explicitly given character list. -/
theorem get_base_version_mk (l : List Char) :
    get_base_version (String.mk l) =
      match searchMatch l (l.takeWhile Char.isDigit).length with
      | none => String.mk l
      | some (g1, rest) =>
        let rest2 := match rest with
          | [] => ([] : List Char)
          | c :: t => if c = '\x0a' then c :: t else t
        if (rest2.takeWhile Char.isDigit) = [] then String.mk l
        else String.mk g1 := rfl

theorem gbv_of_search_none (l : List Char)
    (hsearch : searchMatch l (l.takeWhile Char.isDigit).length = none) :
    get_base_version (String.mk l) = String.mk l := by
  rw [get_base_version_mk, hsearch]

theorem gbv_of_search_nil (l g1 : List Char)
    (hsearch : searchMatch l (l.takeWhile Char.isDigit).length = some (g1, [])) :
    get_base_version (String.mk l) = String.mk l := by
  rw [get_base_version_mk, hsearch]
  rfl

theorem gbv_of_search_cons (l g1 : List Char) (c2 : Char) (r : List Char)
    (hsearch : searchMatch l (l.takeWhile Char.isDigit).length = some (g1, c2 :: r))
    (hc2 : c2 ≠ '\x0a') (hr : r.takeWhile Char.isDigit ≠ []) :
    get_base_version (String.mk l) = String.mk g1 := by
  rw [get_base_version_mk, hsearch]
  show (if ((if c2 = '\x0a' then c2 :: r else r).takeWhile Char.isDigit) = []
        then String.mk l else String.mk g1) = String.mk g1
  rw [if_neg hc2, if_neg hr]

theorem matchTail_all_digits (g1 t : List Char)
    (ht : ∀ x ∈ t, x.isDigit = true) (g rest : List Char)
    (h : matchTail g1 t = some (g, rest)) : rest = [] := by
  cases t with
  | nil => exact absurd h (by simp [matchTail])
  | cons sep tail =>
    have hsep : sep.isDigit = true := ht sep (List.mem_cons_self sep tail)
    have hsepn : ¬(sep = '\x0a') := by
      intro e
      rw [e] at hsep
      exact absurd hsep (by decide)
    have htail : tail.takeWhile Char.isDigit = tail :=
      takeWhile_all_self Char.isDigit tail
        (fun x hx => ht x (List.mem_cons_of_mem sep hx))
    simp only [matchTail, htail] at h
    rw [if_neg hsepn] at h
    by_cases htn : tail = []
    · rw [if_pos htn] at h
      exact absurd h (by simp)
    · rw [if_neg htn] at h
      have h2 := congrArg Prod.snd ((Option.some.injEq _ _).mp h)
      simpa [List.drop_length] using h2.symm

theorem matchAttempt_all_digits (cs : List Char)
    (hall : ∀ x ∈ cs, x.isDigit = true)
    (k : Nat) (g rest : List Char)
    (h : matchAttempt cs k = some (g, rest)) : rest = [] := by
  unfold matchAttempt at h
  exact matchTail_all_digits (cs.take k) (cs.drop k)
    (fun x hx => hall x (List.drop_subset k cs hx)) g rest h

theorem searchMatch_all_digits (cs : List Char)
    (hall : ∀ x ∈ cs, x.isDigit = true) (n : Nat) :
    searchMatch cs n = none ∨ ∃ g, searchMatch cs n = some (g, []) := by
  induction n with
  | zero => exact Or.inl rfl
  | succ m ih =>
    rw [searchMatch_succ]
    cases h : matchAttempt cs (m + 1) with
    | none => exact ih
    | some r =>
      obtain ⟨g, t⟩ := r
      have ht : t = [] := matchAttempt_all_digits cs hall (m + 1) g t h
      subst ht
      exact Or.inr ⟨g, rfl⟩

theorem gbv_all_digits (a : List Char) (h : ∀ x ∈ a, x.isDigit = true) :
    get_base_version (String.mk a) = String.mk a := by
  cases searchMatch_all_digits a h (a.takeWhile Char.isDigit).length with
  | inl hn => exact gbv_of_search_none a hn
  | inr hs =>
    obtain ⟨g, hg⟩ := hs
    exact gbv_of_search_nil a g hg

/-! ## Claim theorems -/

/-- C1: `get_base_version` collapses a three-component dotted version
(major.minor.patch, each component a nonempty digit string) to
major.minor, and leaves a version without a patch component — a
major.minor pair or a bare digit string — unchanged; in particular
`get_base_version "1.14.4" = "1.14"` and
`get_base_version "1.16" = "1.16"`. -/
theorem getBaseVersion_collapses_patch
    (a b c : List Char)
    (ha : a ≠ []) (ha2 : ∀ x ∈ a, x.isDigit = true)
    (hb : b ≠ []) (hb2 : ∀ x ∈ b, x.isDigit = true)
    (hc : c ≠ []) (hc2 : ∀ x ∈ c, x.isDigit = true) :
    get_base_version (String.mk (a ++ ('.' :: (b ++ ('.' :: c))))) =
      String.mk (a ++ ('.' :: b)) ∧
    get_base_version (String.mk (a ++ ('.' :: b))) = String.mk (a ++ ('.' :: b)) ∧
    get_base_version (String.mk a) = String.mk a ∧
    get_base_version "1.14.4" = "1.14" ∧
    get_base_version "1.16" = "1.16" := by
  refine ⟨?_, ?_, gbv_all_digits a ha2, by decide, by decide⟩
  · have hsearch := searchMatch_split a b ('.' :: c) '.' ha ha2 hb hb2
      (by decide) (by decide) (List.takeWhile_cons_of_neg (by decide))
    exact gbv_of_search_cons _ _ '.' c hsearch (by decide)
      (by rw [takeWhile_all_self Char.isDigit c hc2]; exact hc)
  · have hsearch := searchMatch_split a b [] '.' ha ha2 hb hb2
      (by decide) (by decide) (by rfl)
    rw [List.append_nil] at hsearch
    exact gbv_of_search_nil _ _ hsearch

theorem getBaseVersion_collapses_patch_witness :
    get_base_version "1.14.4" = "1.14" ∧ get_base_version "1.16" = "1.16" := by
  have h := getBaseVersion_collapses_patch ['1'] ['1', '4'] ['4']
    (by decide) (by decide) (by decide) (by decide) (by decide) (by decide)
  exact ⟨h.2.2.2.1, h.2.2.2.2⟩

/-- C10 (counterexample to the claim as stated): the separator position
in the pattern is an unescaped dot, which does not match a newline, so
the input `"1\x0a2\x0a3"` — which has the claimed shape
digits, one char, digits, one char, digits — is returned unchanged
instead of being collapsed to its first two digit groups. -/
theorem getBaseVersion_newline_not_separator :
    get_base_version "1\x0a2\x0a3" = "1\x0a2\x0a3" ∧
    "1\x0a2\x0a3" ≠ ("1\x0a2" : String) := by
  decide

/-- C10 (amended): for every input of the form
<digits><sep1><digits><sep2><digits><anything>, where the digit groups
are nonempty and the separators are single non-digit characters other
than newline, `get_base_version` returns the first two digit groups
joined by the first separator character, ignoring everything beyond the
third component; e.g. `"1-14-4"` maps to `"1-14"` and `"1.2.3.4"` to
`"1.2"`. -/
theorem getBaseVersion_any_separator
    (d1 d2 d3 tail : List Char) (c1 c2 : Char)
    (h1 : d1 ≠ []) (h1d : ∀ x ∈ d1, x.isDigit = true)
    (h2 : d2 ≠ []) (h2d : ∀ x ∈ d2, x.isDigit = true)
    (h3 : d3 ≠ []) (h3d : ∀ x ∈ d3, x.isDigit = true)
    (hc1 : c1.isDigit = false) (hc1n : c1 ≠ '\x0a')
    (hc2 : c2.isDigit = false) (hc2n : c2 ≠ '\x0a') :
    get_base_version (String.mk (d1 ++ (c1 :: (d2 ++ (c2 :: (d3 ++ tail)))))) =
      String.mk (d1 ++ (c1 :: d2)) ∧
    get_base_version "1-14-4" = "1-14" ∧
    get_base_version "1.2.3.4" = "1.2" := by
  refine ⟨?_, by decide, by decide⟩
  have hsearch := searchMatch_split d1 d2 (c2 :: (d3 ++ tail)) c1 h1 h1d h2 h2d
    hc1 hc1n (List.takeWhile_cons_of_neg (by simp [hc2]))
  refine gbv_of_search_cons _ _ c2 (d3 ++ tail) hsearch hc2n ?_
  rw [takeWhile_all_append Char.isDigit d3 tail h3d]
  intro he
  exact h3 (List.append_eq_nil.mp he).1

theorem getBaseVersion_any_separator_witness :
    get_base_version "1-14-4" = "1-14" ∧ get_base_version "1.2.3.4" = "1.2" := by
  have h := getBaseVersion_any_separator ['1'] ['1', '4'] ['4'] [] '-' '-'
    (by decide) (by decide) (by decide) (by decide) (by decide) (by decide)
    (by decide) (by decide) (by decide) (by decide)
  exact ⟨h.2.1, h.2.2⟩

/-! ## Lemmas about `listIndex` and the constructor -/

theorem listIndex_of_not_mem (x : String) (l : List String) (h : x ∉ l) :
    listIndex x l = none := by
  induction l with
  | nil => rfl
  | cons y t ih =>
    have h1 : ¬(y = x) := fun e => h (e ▸ List.mem_cons_self y t)
    have h2 : x ∉ t := fun e => h (List.mem_cons_of_mem y e)
    simp [listIndex, h1, ih h2]

theorem listIndex_of_mem (x : String) (l : List String) (h : x ∈ l) :
    ∃ i, listIndex x l = some i := by
  induction l with
  | nil => exact absurd h (List.not_mem_nil x)
  | cons y t ih =>
    by_cases hy : y = x
    · exact ⟨0, by simp [listIndex, hy]⟩
    · have hx : x ∈ t := by
        cases List.mem_cons.mp h with
        | inl e => exact absurd e.symm hy
        | inr m => exact m
      obtain ⟨i, hi⟩ := ih hx
      exact ⟨i + 1, by simp [listIndex, hy, hi]⟩

theorem listIndex_spec (x : String) (l : List String) (i : Nat)
    (h : listIndex x l = some i) :
    l[i]? = some x ∧ ∀ j, j < i → l[j]? ≠ some x := by
  induction l generalizing i with
  | nil => exact absurd h (by simp [listIndex])
  | cons y t ih =>
    by_cases hy : y = x
    · rw [listIndex, if_pos hy] at h
      have h0 : i = 0 := (Option.some.injEq _ _).mp h |>.symm ▸ rfl
      subst h0
      exact ⟨by simp [hy], fun j hj => absurd hj (Nat.not_lt_zero j)⟩
    · rw [listIndex, if_neg hy] at h
      cases hidx : listIndex x t with
      | none => rw [hidx] at h; exact absurd h (by simp)
      | some k =>
        rw [hidx] at h
        have hk : k + 1 = i := by simpa using h
        subst hk
        obtain ⟨ih1, ih2⟩ := ih k hidx
        refine ⟨by simpa using ih1, ?_⟩
        intro j hj
        cases j with
        | zero =>
          simp only [List.getElem?_cons_zero]
          intro e
          exact hy ((Option.some.injEq _ _).mp e)
        | succ m =>
          simp only [List.getElem?_cons_succ]
          exact ih2 m (Nat.lt_of_succ_lt_succ hj)

theorem head?_drop_eq {α : Type} (l : List α) (i : Nat) :
    (l.drop i).head? = l[i]? := by
  induction l generalizing i with
  | nil => simp
  | cons x t ih =>
    cases i with
    | zero => simp
    | succ n =>
      rw [List.drop_succ_cons, List.getElem?_cons_succ]
      exact ih n

/-- Unfolding of `uploaderInit` once a first artifact is known. -/
theorem uploaderInit_cons (jar : String) (rest : List String) (bk : Option String)
    (cf : Option (List String)) (ver : String) :
    uploaderInit ⟨jar :: rest, bk, cf, ver⟩ =
      match listIndex (get_base_version (resolveMinimumVersion bk).1)
          AVAILABLE_GAME_VERSIONS with
      | none => Except.error InitError.valueError
      | some i =>
        let cl := match cf with
          | some ls => get_changelog_entries_for_version ls ver
          | none => ("", false)
        Except.ok
          { upload_file := jar
            version := ver
            supported_game_versions := AVAILABLE_GAME_VERSIONS.drop i
            changelog := cl.1
            defaultNoticeLogged := (resolveMinimumVersion bk).2
            changelogWarningLogged := cl.2 } := rfl

/-- C2: when the normalized minimum version occurs in the catalog,
construction succeeds and the supported set is the contiguous suffix of
the catalog that starts at the first index of that version: the element
at that index is the normalized minimum, no earlier element is, the
suffix starts with the normalized minimum, and prepending the first
`i` catalog entries recovers the whole catalog (so the suffix runs to
the last entry inclusive). -/
theorem supportedVersions_window (input : InitInput) (jar : String)
    (rest : List String) (hjar : input.jar_files = jar :: rest)
    (hmem : get_base_version (resolveMinimumVersion input.bukkit_api_version).1 ∈
      AVAILABLE_GAME_VERSIONS) :
    ∃ i u, uploaderInit input = Except.ok u ∧
      u.supported_game_versions = AVAILABLE_GAME_VERSIONS.drop i ∧
      AVAILABLE_GAME_VERSIONS[i]? =
        some (get_base_version (resolveMinimumVersion input.bukkit_api_version).1) ∧
      (∀ j, j < i → AVAILABLE_GAME_VERSIONS[j]? ≠
        some (get_base_version (resolveMinimumVersion input.bukkit_api_version).1)) ∧
      u.supported_game_versions.head? =
        some (get_base_version (resolveMinimumVersion input.bukkit_api_version).1) ∧
      AVAILABLE_GAME_VERSIONS.take i ++ u.supported_game_versions =
        AVAILABLE_GAME_VERSIONS := by
  obtain ⟨jars, bk, cf, ver⟩ := input
  simp only at hjar hmem
  subst hjar
  obtain ⟨i, hi⟩ := listIndex_of_mem _ _ hmem
  obtain ⟨hs1, hs2⟩ := listIndex_spec _ _ i hi
  refine ⟨i, ?_⟩
  rw [uploaderInit_cons, hi]
  cases cf with
  | none =>
    exact ⟨_, rfl, rfl, hs1, hs2, by rw [head?_drop_eq]; exact hs1,
      List.take_append_drop i _⟩
  | some ls =>
    exact ⟨_, rfl, rfl, hs1, hs2, by rw [head?_drop_eq]; exact hs1,
      List.take_append_drop i _⟩

theorem supportedVersions_window_witness :
    ∃ i u, uploaderInit ⟨["plugin.jar"], some "1.14", none, "1.0.0"⟩ = Except.ok u ∧
      u.supported_game_versions = AVAILABLE_GAME_VERSIONS.drop i ∧
      AVAILABLE_GAME_VERSIONS[i]? =
        some (get_base_version (resolveMinimumVersion (some "1.14")).1) ∧
      (∀ j, j < i → AVAILABLE_GAME_VERSIONS[j]? ≠
        some (get_base_version (resolveMinimumVersion (some "1.14")).1)) ∧
      u.supported_game_versions.head? =
        some (get_base_version (resolveMinimumVersion (some "1.14")).1) ∧
      AVAILABLE_GAME_VERSIONS.take i ++ u.supported_game_versions =
        AVAILABLE_GAME_VERSIONS :=
  supportedVersions_window ⟨["plugin.jar"], some "1.14", none, "1.0.0"⟩
    "plugin.jar" [] rfl (by decide)

/-- C3: when the normalized minimum version is not in the catalog (and
an artifact exists, so the lookup step is reached), construction fails
with the lookup error of `list.index` (`ValueError`), which is not
caught. -/
theorem initFails_when_version_missing (input : InitInput) (jar : String)
    (rest : List String) (hjar : input.jar_files = jar :: rest)
    (hmem : get_base_version (resolveMinimumVersion input.bukkit_api_version).1 ∉
      AVAILABLE_GAME_VERSIONS) :
    uploaderInit input = Except.error InitError.valueError := by
  obtain ⟨jars, bk, cf, ver⟩ := input
  simp only at hjar hmem
  subst hjar
  rw [uploaderInit_cons, listIndex_of_not_mem _ _ hmem]

theorem initFails_when_version_missing_witness :
    uploaderInit ⟨["plugin.jar"], some "2.0", none, "1.0.0"⟩ =
      Except.error InitError.valueError :=
  initFails_when_version_missing ⟨["plugin.jar"], some "2.0", none, "1.0.0"⟩
    "plugin.jar" [] rfl (by decide)

/-- C5: when the glob for the artifact produced no file, construction
fails immediately with the missing-artifact lookup error
(the `IndexError` of `[0]` on the empty list), whatever the other
inputs are. -/
theorem initFails_when_no_artifact (input : InitInput)
    (h : input.jar_files = []) :
    uploaderInit input = Except.error InitError.indexError := by
  obtain ⟨jars, bk, cf, ver⟩ := input
  simp only at h
  subst h
  rfl

theorem initFails_when_no_artifact_witness :
    uploaderInit ⟨[], some "9.9.9", some ["## x"], "1.0.0"⟩ =
      Except.error InitError.indexError :=
  initFails_when_no_artifact ⟨[], some "9.9.9", some ["## x"], "1.0.0"⟩ rfl

/-- C6: when the manifest has no `bukkit-api-version` element, the
minimum version before normalization is the hardcoded default
`"1.14.4"`, a notice is logged, and (when an artifact exists)
construction succeeds with the supported window starting at `"1.14"`,
the normalization of the default, which sits at index 6 of the
catalog. -/
theorem defaultMinimumVersion_used (input : InitInput)
    (hb : input.bukkit_api_version = none)
    (jar : String) (rest : List String) (hjar : input.jar_files = jar :: rest) :
    resolveMinimumVersion input.bukkit_api_version = ("1.14.4", true) ∧
    ∃ u, uploaderInit input = Except.ok u ∧
      u.defaultNoticeLogged = true ∧
      u.supported_game_versions = AVAILABLE_GAME_VERSIONS.drop 6 ∧
      u.supported_game_versions.head? = some "1.14" := by
  obtain ⟨jars, bk, cf, ver⟩ := input
  simp only at hb hjar
  subst hb
  subst hjar
  refine ⟨rfl, ?_⟩
  have hidx : listIndex (get_base_version (resolveMinimumVersion none).1)
      AVAILABLE_GAME_VERSIONS = some 6 := by decide
  rw [uploaderInit_cons, hidx]
  cases cf with
  | none => exact ⟨_, rfl, rfl, rfl, rfl⟩
  | some ls => exact ⟨_, rfl, rfl, rfl, rfl⟩

theorem defaultMinimumVersion_used_witness :
    resolveMinimumVersion (none : Option String) = ("1.14.4", true) ∧
    ∃ u, uploaderInit ⟨["plugin.jar"], none, none, "1.0.0"⟩ = Except.ok u ∧
      u.defaultNoticeLogged = true ∧
      u.supported_game_versions = AVAILABLE_GAME_VERSIONS.drop 6 ∧
      u.supported_game_versions.head? = some "1.14" :=
  defaultMinimumVersion_used ⟨["plugin.jar"], none, none, "1.0.0"⟩ rfl
    "plugin.jar" [] rfl

/-! ## Lemmas about the changelog scan -/

theorem collectSection_append (v : List Char) (xs ys : List (List Char)) (b : Bool) :
    collectSection v (xs ++ ys) b =
      collectSection v xs b ++ collectSection v ys (sectionState v xs b) := by
  induction xs generalizing b with
  | nil => simp [collectSection, sectionState]
  | cons l rest ih =>
    by_cases hp : List.isPrefixOf hhSpace (pyStrip l) = true <;>
      cases b <;>
      simp [collectSection, sectionState, hp, ih]

theorem collectSection_closed (v : List Char) (ls : List (List Char))
    (h : ∀ l ∈ ls, opensSection v l = false) :
    collectSection v ls false = [] := by
  induction ls with
  | nil => rfl
  | cons l rest ih =>
    have hrest := ih (fun x hx => h x (List.mem_cons_of_mem l hx))
    have hl := h l (List.mem_cons_self l rest)
    simp only [opensSection, Bool.and_eq_false_iff] at hl
    simp only [collectSection]
    by_cases hp : List.isPrefixOf hhSpace (pyStrip l) = true
    · have hm : headerMatches v (pyStrip l) = false := by
        cases hl with
        | inl e => exact absurd hp (by simp [e])
        | inr e => exact e
      rw [if_pos hp, hm]
      exact hrest
    · rw [if_neg hp, if_neg (by simp)]
      exact hrest

/-- C4: on the two-section document the excerpt for `"1.2.0"` is
`"A\x0aB"` with no warning, the excerpt for the absent `"9.9.9"` is
`""` with a warning, and collection stops at the next level-2 heading:
any further lines none of which reopens a `"1.2.0"` section leave the
excerpt unchanged. -/
theorem changelog_extraction (tail : List String)
    (htail : ∀ l ∈ tail, opensSection ("1.2.0".toList) l.toList = false) :
    get_changelog_entries_for_version
        ["## 1.2.0 (2023-01-01)", "A", "B", "## 1.1.0 (2022-01-01)", "C"]
        "1.2.0" = ("A\x0aB", false) ∧
    get_changelog_entries_for_version
        ["## 1.2.0 (2023-01-01)", "A", "B", "## 1.1.0 (2022-01-01)", "C"]
        "9.9.9" = ("", true) ∧
    get_changelog_entries_for_version
        (["## 1.2.0 (2023-01-01)", "A", "B", "## 1.1.0 (2022-01-01)", "C"] ++ tail)
        "1.2.0" = ("A\x0aB", false) := by
  refine ⟨by decide, by decide, ?_⟩
  unfold get_changelog_entries_for_version
  rw [List.map_append, collectSection_append]
  have hstate : sectionState ("1.2.0".toList)
      ((["## 1.2.0 (2023-01-01)", "A", "B", "## 1.1.0 (2022-01-01)", "C"].map
        String.toList)) false = false := by decide
  have hcl : collectSection ("1.2.0".toList) (tail.map String.toList) false = [] := by
    apply collectSection_closed
    intro l hl
    obtain ⟨s, hs, rfl⟩ := List.mem_map.mp hl
    exact htail s hs
  rw [hstate, hcl, List.append_nil]
  decide

theorem changelog_extraction_witness :
    get_changelog_entries_for_version
        ["## 1.2.0 (2023-01-01)", "A", "B", "## 1.1.0 (2022-01-01)", "C"]
        "1.2.0" = ("A\x0aB", false) ∧
    get_changelog_entries_for_version
        (["## 1.2.0 (2023-01-01)", "A", "B", "## 1.1.0 (2022-01-01)", "C"] ++
          ["tail text", "## 1.3.0 (2023-02-02)"])
        "1.2.0" = ("A\x0aB", false) := by
  have h := changelog_extraction ["tail text", "## 1.3.0 (2023-02-02)"] (by decide)
  exact ⟨h.1, h.2.2⟩

/-- C9 (counterexample to the claim as stated): a document whose
`1.2.0` section consists of a single blank line yields the empty
excerpt, yet no warning is recorded, refuting the claimed equivalence
between the warning and the empty excerpt. -/
theorem changelog_warning_without_warning_case :
    (get_changelog_entries_for_version
        ["## 1.2.0 (2023-01-01)", "", "## 1.1.0 (2022-01-01)", "C"] "1.2.0") =
      ("", false) := by
  decide

/-- C9 (amended): the warning is recorded iff the scan collected no
line at all; a warning always comes with an empty excerpt — and is
emitted also when a matching header is present with no body lines —
but an empty excerpt does not imply a warning, since a matched section
of blank lines strips to the empty excerpt with no warning. -/
theorem changelog_warning_iff_no_lines :
    (∀ (doc : List String) (v : String),
      (get_changelog_entries_for_version doc v).2 = true ↔
        collectSection v.toList (doc.map String.toList) false = []) ∧
    (∀ (doc : List String) (v : String),
      (get_changelog_entries_for_version doc v).2 = true →
        (get_changelog_entries_for_version doc v).1 = "") ∧
    get_changelog_entries_for_version
        ["## 1.2.0 (2023-01-01)", "## 1.1.0 (2022-01-01)", "C"] "1.2.0" =
      ("", true) := by
  refine ⟨?_, ?_, by decide⟩
  · intro doc v
    unfold get_changelog_entries_for_version
    exact List.isEmpty_iff
  · intro doc v h
    unfold get_changelog_entries_for_version at h ⊢
    rw [List.isEmpty_iff] at h
    rw [h]
    rfl

theorem changelog_warning_iff_no_lines_witness :
    (get_changelog_entries_for_version ["no sections here"] "1.0").1 = "" :=
  changelog_warning_iff_no_lines.2.1 ["no sections here"] "1.0" (by decide)

/-- C7: in the entry sequence, an unset project-id environment variable
means the corresponding upload action never occurs in the performed
action list — no network call to that target is attempted, and the run
proceeds (skipping is not an error). -/
theorem unsetProjectId_skips_upload (env : MainEnv) :
    (env.modrinth_project_id = none →
      ∀ pid auth, MainAction.uploadModrinth pid auth ∉ mainActions env) ∧
    (env.curseforge_project_id = none →
      ∀ pid auth, MainAction.uploadCurseforge pid auth ∉ mainActions env) := by
  obtain ⟨mp, ma, cp, ca⟩ := env
  constructor
  · intro hmp pid auth hmem
    simp only at hmp
    subst hmp
    simp only [mainActions, List.mem_cons, List.mem_append] at hmem
    rcases hmem with h | h | h
    · exact MainAction.noConfusion h
    · simp at h
    · cases cp with
      | none => simp at h
      | some pid2 =>
        by_cases hp : pid2 = ""
        · simp [hp] at h
        · simp [hp] at h
  · intro hcp pid auth hmem
    simp only at hcp
    subst hcp
    simp only [mainActions, List.mem_cons, List.mem_append] at hmem
    rcases hmem with h | h | h
    · exact MainAction.noConfusion h
    · cases mp with
      | none => simp at h
      | some pid2 =>
        by_cases hp : pid2 = ""
        · simp [hp] at h
        · simp [hp] at h
    · simp at h

theorem unsetProjectId_skips_upload_witness :
    MainAction.uploadModrinth "p" (some "t") ∉
      mainActions ⟨none, some "t", none, none⟩ ∧
    MainAction.uploadCurseforge "p" (some "t") ∉
      mainActions ⟨none, some "t", none, none⟩ :=
  ⟨(unsetProjectId_skips_upload ⟨none, some "t", none, none⟩).1 rfl "p" (some "t"),
   (unsetProjectId_skips_upload ⟨none, some "t", none, none⟩).2 rfl "p" (some "t")⟩

/-- C8: the game-version ids collected in `upload_curseforge` are
exactly the ids of the retrieved records whose type classifier is the
constant 1 and whose name belongs to the supported-version set, in the
order the records appear in the retrieved list. -/
theorem curseforge_ids_are_filtered_ids (records : List GameVersionRecord)
    (supported : List String) :
    supportedGameVersionIds supported records =
      (records.filter (cfRecordMatches supported)).map (fun r => r.id) := by
  induction records with
  | nil => rfl
  | cons r rest ih =>
    by_cases h : cfRecordMatches supported r = true <;>
      simp [supportedGameVersionIds, List.filter_cons, h, ih]

end DeployHelper
